import Mathlib

/-!
Verification of the `spork` worktree-provisioning pipeline.

Shallow embedding conventions:
* Python strings handled character-by-character (the name sanitizer, the
  feature-request text) are modelled as `List Nat` of Unicode code points;
  `str.lower` is modelled on the ASCII range (the only range that can map a
  character into the retained alphabet `[a-z0-9-]`, apart from a handful of
  exotic Unicode fold cases that do not affect any property proved here).
* Strings handled atomically (branch names, file paths, error messages) are
  modelled as `String`.
* External effects (subprocess calls, the real filesystem) are modelled as
  explicit oracle parameters: booleans for checks that can only pass or fail,
  `Option`-valued oracles where a payload or an error message matters.
* Fallible Python functions (ones that raise) return `Except String _`.
-/

namespace Spork

instance {ε α : Type} [DecidableEq ε] [DecidableEq α] : DecidableEq (Except ε α) :=
  fun a b =>
    match a, b with
    | .ok x, .ok y =>
      if h : x = y then isTrue (by rw [h]) else isFalse (fun hh => by cases hh; exact h rfl)
    | .error x, .error y =>
      if h : x = y then isTrue (by rw [h]) else isFalse (fun hh => by cases hh; exact h rfl)
    | .ok _, .error _ => isFalse (fun hh => by cases hh)
    | .error _, .ok _ => isFalse (fun hh => by cases hh)

/-! ### Code-point helpers (sanitizer alphabet) -/

/-- Code points of characters retained by the sanitizer: `[a-z0-9-]`
(`re.sub(r"[^a-z0-9-]", "-", s)` in `worktree.py`). -/
def isAllowedCP (c : Nat) : Bool :=
  (97 ≤ c && c ≤ 122) || (48 ≤ c && c ≤ 57) || c == 45

/-- Lowercase alphanumeric code points `[a-z0-9]`. -/
def isLowerAlnumCP (c : Nat) : Bool :=
  (97 ≤ c && c ≤ 122) || (48 ≤ c && c ≤ 57)

/-- `str.lower`, modelled on the ASCII range: `A`-`Z` (65-90) shift by 32. -/
def pyLower (c : Nat) : Nat :=
  if 65 ≤ c ∧ c ≤ 90 then c + 32 else c

/-- Whitespace code points recognised by `str.strip()` (ASCII range). -/
def isSpaceCP (c : Nat) : Bool :=
  c == 32 || c == 9 || c == 10 || c == 13 || c == 11 || c == 12

/-- Code points accepted by the `FeatureRequest.sanitized_name` pydantic
validator (`c.isalnum() or c == "-"`), modelled on the ASCII range. -/
def isAlnumHyphenCP (c : Nat) : Bool :=
  (48 ≤ c && c ≤ 57) || (65 ≤ c && c ≤ 90) || (97 ≤ c && c ≤ 122) || c == 45

/-! ### NameSanitizer (`spork/worktree.py`, `sanitize_feature_name`) -/

/-- `re.sub(r"-+", "-", s)`: collapse every maximal run of hyphens (code
point 45) into a single hyphen. -/
def collapseHy : List Nat → List Nat
  | [] => []
  | [c] => [c]
  | c :: d :: rest =>
    if c = 45 ∧ d = 45 then collapseHy (d :: rest)
    else c :: collapseHy (d :: rest)

/-- `s.lstrip("-")`: drop leading hyphens. -/
def lstripHy (l : List Nat) : List Nat := l.dropWhile (· == 45)

/-- `s.rstrip("-")`: drop trailing hyphens. -/
def rstripHy : List Nat → List Nat
  | [] => []
  | c :: rest =>
    let r := rstripHy rest
    if r = [] ∧ c = 45 then [] else c :: r

/-- `s.strip("-")`: drop hyphens at both ends. -/
def stripHy (l : List Nat) : List Nat := rstripHy (lstripHy l)

/-- `sanitize_feature_name` from `spork/worktree.py`: lowercase, replace
`_` (95) and space (32) with `-` (45), replace every character outside
`[a-z0-9-]` with `-`, collapse hyphen runs, strip outer hyphens, then
truncate to `max_length` and strip any hyphen exposed by the truncation. -/
def sanitize_feature_name (name : List Nat) (max_length : Nat := 50) : List Nat :=
  let s1 := name.map pyLower
  let s2 := s1.map fun c => if c = 95 then 45 else c
  let s3 := s2.map fun c => if c = 32 then 45 else c
  let s4 := s3.map fun c => if isAllowedCP c then c else 45
  let s5 := collapseHy s4
  let s6 := stripHy s5
  if max_length < s6.length then rstripHy (s6.take max_length) else s6

/-- `True` when a list of code points contains no two consecutive hyphens. -/
def noDoubleHy : List Nat → Bool
  | [] => true
  | [_] => true
  | c :: d :: rest => !(c == 45 && d == 45) && noDoubleHy (d :: rest)

/-! ### BranchNumberAllocator (`spork/worktree.py`, `get_next_feature_number`) -/

/-- The numeric component of a feature branch name plus its zero-padded
rendering (`spork/data_models.py`, `FeatureNumber`). -/
structure FeatureNumber where
  number : Nat
  formatted : String
deriving DecidableEq, Repr

/-- Python `f"{n:03d}"` for the values reachable here. -/
def pad3 (n : Nat) : String :=
  if n < 10 then "00" ++ toString n
  else if n < 100 then "0" ++ toString n
  else toString n

/-- `branch.split("/")[-1]`: keep the characters after the final `/`
(the whole name when no `/` occurs, empty when the name ends in `/`). -/
def stripRemote (b : List Char) : List Char :=
  b.foldl (fun acc c => if c = '/' then [] else acc ++ [c]) []

/-- `re.compile(r"^(\d{3})-").match(s)`: exactly three leading digits
followed by a hyphen; yields the three-digit value. -/
def threeDigitNum (s : List Char) : Option Nat :=
  match s with
  | a :: b :: c :: d :: _ =>
    if a.isDigit && b.isDigit && c.isDigit && d == '-' then
      some ((a.toNat - 48) * 100 + (b.toNat - 48) * 10 + (c.toNat - 48))
    else none
  | _ => none

/-- The numbers collected by the allocator's loop over branch names. -/
def matchedNumbers (branches : List String) : List Nat :=
  branches.filterMap fun b => threeDigitNum (stripRemote b.data)

/-- `get_next_feature_number` from `spork/worktree.py`: next number is
`max(matched) + 1`, or `1` when no branch matches; raises (`.error`) when
the next number would exceed 999. -/
def get_next_feature_number (branches : List String) : Except String FeatureNumber :=
  let ns := matchedNumbers branches
  let next : Nat := match ns with
    | [] => 1
    | _ => ns.foldl Nat.max 0 + 1
  if 999 < next then
    .error ("Feature number " ++ toString next ++ " exceeds maximum of 999")
  else
    .ok ⟨next, pad3 next⟩

/-! ### EnvironmentPropagator (`spork/env_files.py`) -/

/-- A filesystem entry below a directory, given by its path components
relative to that directory and whether it is a regular file (entries produced
by `Path.rglob`). -/
structure FsEntry where
  parts : List String
  isFile : Bool
deriving DecidableEq, Repr

/-- POSIX path join: components separated by `/`. -/
def joinSlash : List (List Char) → List Char
  | [] => []
  | [p] => p
  | p :: rest => p ++ '/' :: joinSlash rest

/-- `str(file_path.relative_to(workspace_path))` (POSIX `/` separator). -/
def relPath (e : FsEntry) : String := String.mk (joinSlash (e.parts.map String.data))

/-- An entry's final path component (the name matched by `rglob('.env*')`). -/
def entryName (e : FsEntry) : String := e.parts.getLastD ""

/-- The glob pattern `.env*`: the name's first four characters are `.env`. -/
def isEnvName (name : List Char) : Bool := name.take 4 == ['.', 'e', 'n', 'v']

/-- The skip test of `discover_env_files`: `'.git' in file_path.parts or
'.worktrees' in file_path.parts`, where `file_path` is the workspace path
followed by the entry's relative components. -/
def excludedEntry (wsParts : List String) (e : FsEntry) : Bool :=
  (wsParts ++ e.parts).contains ".git" || (wsParts ++ e.parts).contains ".worktrees"

/-- The filter applied to each enumerated entry by `discover_env_files`. -/
def keptEntry (wsParts : List String) (e : FsEntry) : Bool :=
  e.isFile && isEnvName (entryName e).data && !excludedEntry wsParts e

/-- Lexicographic comparison of character sequences by code point: the order
Python's `sorted` uses on `str` values. -/
def lexLeCh : List Char → List Char → Bool
  | [], _ => true
  | _ :: _, [] => false
  | a :: as, b :: bs => if a = b then lexLeCh as bs else decide (a < b)

/-- The sort order on rendered paths. -/
def strLexLe (a b : String) : Prop := lexLeCh a.data b.data = true

instance : DecidableRel strLexLe := fun a b => instDecidableEqBool (lexLeCh a.data b.data) true

/-- `discover_env_files` from `spork/env_files.py`: enumerate entries whose
name starts with `.env`, skip paths with a `.git` or `.worktrees` component,
keep regular files, return the sorted relative paths. The workspace directory
sits at `wsParts`; `fs` lists its recursive contents. -/
def discover_env_files (wsParts : List String) (fs : List FsEntry) : List String :=
  List.insertionSort strLexLe ((fs.filter (keptEntry wsParts)).map relPath)

/-- `EnvFileCopyResult` from `spork/data_models.py`. -/
structure EnvFileCopyResult where
  files_discovered : Nat
  files_copied : Nat
  files_failed : Nat
  errors : List String
deriving DecidableEq, Repr

/-- One iteration of the best-effort copy loop: `copyFile f = none` models a
copy (read, mkdir, write) that succeeds, `some e` models one that raises an
exception rendered as `e`. -/
def copyStep (copyFile : String → Option String) (acc : Nat × Nat × List String)
    (filepath : String) : Nat × Nat × List String :=
  match copyFile filepath with
  | none => (acc.1 + 1, acc.2.1, acc.2.2)
  | some e => (acc.1, acc.2.1 + 1, acc.2.2 ++ ["Failed to copy " ++ filepath ++ ": " ++ e])

/-- `copy_env_files_to_worktree` from `spork/env_files.py`: precondition
checks on the destination, repository-root resolution (`none` models the
re-raised `RuntimeError`), then the best-effort loop over the discovered
files. `fs` lists the repository root's recursive contents. -/
def copy_env_files_to_worktree (destExists destIsDir : Bool)
    (repoRoot : Option (List String)) (fs : List FsEntry)
    (copyFile : String → Option String) : Except String EnvFileCopyResult :=
  if destExists = false then .error "Worktree path does not exist"
  else if destIsDir = false then .error "Worktree path is not a directory"
  else
    match repoRoot with
    | none => .error "Cannot determine repository root"
    | some rootParts =>
      let env_files := discover_env_files rootParts fs
      let acc := env_files.foldl (copyStep copyFile) (0, 0, [])
      .ok ⟨env_files.length, acc.1, acc.2.1, acc.2.2⟩

/-! ### The CLI pipeline (`spork/cli.py`) -/

/-- The externally observable actions of one `cli` run, in program order.
`copyEnvFiles` is the action of invoking `copy_env_files_to_worktree`; it is
declared so that its presence or absence in a run's trace can be stated. -/
inductive Step where
  | checkGitInstalled
  | checkGitRepository
  | getRepoRoot
  | getMainBranch
  | checkSpecKit
  | checkClaudeInstalled
  | gitFetch
  | listBranches
  | allocateNumber
  | buildFeatureRequest
  | buildConfig
  | createWorktree
  | copyEnvFiles
  | launchClaude
deriving DecidableEq, Repr

/-- Outcomes of the external collaborators consulted by `cli`, fixed before
the run (the pipeline is sequential and consults each at most once). -/
structure CliEnv where
  gitInstalled : Bool
  inGitRepository : Bool
  repoRootOk : Bool
  mainBranch : Option String
  specKitOk : Bool
  claudeInstalled : Bool
  fetchOk : Bool
  branches : List String
  worktreeAddOk : Bool
  claudeExitCode : Nat
deriving Repr

/-- `True` when `get_next_feature_number` returns instead of raising. -/
def allocOk (branches : List String) : Bool :=
  match get_next_feature_number branches with
  | .ok _ => true
  | .error _ => false

/-- The pydantic validation of `FeatureRequest` (`spork/data_models.py`):
`text` 1-500 characters, `sanitized_name` 1-50 characters over
alphanumerics and hyphens. -/
def featureRequestValid (text sanitized : List Nat) : Bool :=
  (1 ≤ text.length && text.length ≤ 500) &&
  (1 ≤ sanitized.length && sanitized.length ≤ 50) &&
  sanitized.all isAlnumHyphenCP

/-- The `cli` function of `spork/cli.py` as a trace-producing state machine:
returns the list of performed steps and the process exit code. Branch
structure and exit codes follow the source line by line; `WorktreeConfig`
construction (`buildConfig`) cannot fail for field values produced by this
pipeline, so it has no failure branch. -/
def cliRun (env : CliEnv) (fr : List Nat) : List Step × Nat :=
  if fr.all isSpaceCP then ([], 3)
  else if env.gitInstalled = false then ([.checkGitInstalled], 1)
  else if env.inGitRepository = false then
    ([.checkGitInstalled, .checkGitRepository], 1)
  else if env.repoRootOk = false then
    ([.checkGitInstalled, .checkGitRepository, .getRepoRoot], 1)
  else
    match env.mainBranch with
    | none =>
      ([.checkGitInstalled, .checkGitRepository, .getRepoRoot, .getMainBranch], 2)
    | some _ =>
      if env.specKitOk = false then
        ([.checkGitInstalled, .checkGitRepository, .getRepoRoot, .getMainBranch,
          .checkSpecKit], 1)
      else if env.claudeInstalled = false then
        ([.checkGitInstalled, .checkGitRepository, .getRepoRoot, .getMainBranch,
          .checkSpecKit, .checkClaudeInstalled], 1)
      else if allocOk env.branches = false then
        ([.checkGitInstalled, .checkGitRepository, .getRepoRoot, .getMainBranch,
          .checkSpecKit, .checkClaudeInstalled, .gitFetch, .listBranches,
          .allocateNumber], 2)
      else if featureRequestValid fr (sanitize_feature_name fr 50) = false then
        ([.checkGitInstalled, .checkGitRepository, .getRepoRoot, .getMainBranch,
          .checkSpecKit, .checkClaudeInstalled, .gitFetch, .listBranches,
          .allocateNumber, .buildFeatureRequest], 3)
      else if env.worktreeAddOk = false then
        ([.checkGitInstalled, .checkGitRepository, .getRepoRoot, .getMainBranch,
          .checkSpecKit, .checkClaudeInstalled, .gitFetch, .listBranches,
          .allocateNumber, .buildFeatureRequest, .buildConfig, .createWorktree], 2)
      else
        ([.checkGitInstalled, .checkGitRepository, .getRepoRoot, .getMainBranch,
          .checkSpecKit, .checkClaudeInstalled, .gitFetch, .listBranches,
          .allocateNumber, .buildFeatureRequest, .buildConfig, .createWorktree,
          .launchClaude], env.claudeExitCode)

/-- The four prerequisite checks of the validation pipeline, in source order. -/
def checkOrder : List Step :=
  [.checkGitInstalled, .checkGitRepository, .checkSpecKit, .checkClaudeInstalled]

/-- Membership in the four prerequisite checks. -/
def isCheckStep (s : Step) : Bool :=
  s == .checkGitInstalled || s == .checkGitRepository ||
  s == .checkSpecKit || s == .checkClaudeInstalled

/-- A run environment in which every external collaborator succeeds. -/
def allGoodEnv : CliEnv where
  gitInstalled := true
  inGitRepository := true
  repoRootOk := true
  mainBranch := some "main"
  specKitOk := true
  claudeInstalled := true
  fetchOk := true
  branches := ["main"]
  worktreeAddOk := true
  claudeExitCode := 0

/-- A run environment in which everything succeeds except the
`git worktree add` call. -/
def worktreeFailEnv : CliEnv :=
  { allGoodEnv with worktreeAddOk := false }

/-- The shape shared by every sanitizer output: only `[a-z0-9-]` characters,
no hyphen runs, and no hyphen at either end. -/
def goodOut (l : List Nat) : Prop :=
  (∀ c ∈ l, isAllowedCP c = true) ∧ noDoubleHy l = true ∧
  (∀ x, l.head? = some x → isLowerAlnumCP x = true) ∧
  (∀ x, l.getLast? = some x → isLowerAlnumCP x = true)

/-- The message recorded for a failed copy of `x`, if any. -/
def failMsg (copyFile : String → Option String) (x : String) : Option String :=
  (copyFile x).map fun e => "Failed to copy " ++ x ++ ": " ++ e

/-! ### Helper lemmas: the sanitizer pipeline -/

theorem map_id_of_mem {f : Nat → Nat} : ∀ l : List Nat, (∀ c ∈ l, f c = c) → l.map f = l
  | [], _ => rfl
  | c :: rest, h => by
    rw [List.map_cons, h c (by simp), map_id_of_mem rest (fun x hx => h x (by simp [hx]))]

theorem collapseHy_mem : ∀ l : List Nat, ∀ c ∈ collapseHy l, c ∈ l
  | [], c, h => by simp [collapseHy] at h
  | [a], c, h => by simpa [collapseHy] using h
  | a :: b :: rest, c, h => by
    by_cases hab : a = 45 ∧ b = 45
    · rw [collapseHy, if_pos hab] at h
      exact List.mem_cons_of_mem a (collapseHy_mem (b :: rest) c h)
    · rw [collapseHy, if_neg hab] at h
      rcases List.mem_cons.mp h with h | h
      · exact h ▸ List.mem_cons_self a _
      · exact List.mem_cons_of_mem a (collapseHy_mem (b :: rest) c h)

theorem collapseHy_head? : ∀ l : List Nat, (collapseHy l).head? = l.head?
  | [] => rfl
  | [_] => rfl
  | a :: b :: rest => by
    by_cases hab : a = 45 ∧ b = 45
    · rw [collapseHy, if_pos hab, collapseHy_head? (b :: rest)]
      simp [hab.1, hab.2]
    · rw [collapseHy, if_neg hab]
      simp

theorem noDoubleHy_cons_cons {c d : Nat} {rest : List Nat} :
    noDoubleHy (c :: d :: rest) = true ↔
      ¬(c = 45 ∧ d = 45) ∧ noDoubleHy (d :: rest) = true := by
  simp [noDoubleHy, not_and, and_comm]
  tauto

theorem collapseHy_noDouble : ∀ l : List Nat, noDoubleHy (collapseHy l) = true
  | [] => rfl
  | [_] => rfl
  | a :: b :: rest => by
    by_cases hab : a = 45 ∧ b = 45
    · rw [collapseHy, if_pos hab]
      exact collapseHy_noDouble (b :: rest)
    · rw [collapseHy, if_neg hab]
      have ih := collapseHy_noDouble (b :: rest)
      have hh := collapseHy_head? (b :: rest)
      cases hc : collapseHy (b :: rest) with
      | nil => simp [noDoubleHy]
      | cons e t =>
        have he : e = b := by
          rw [hc] at hh
          simpa using hh
        rw [hc] at ih
        exact noDoubleHy_cons_cons.mpr ⟨he ▸ hab, ih⟩

theorem collapseHy_eq_self : ∀ l : List Nat, noDoubleHy l = true → collapseHy l = l
  | [], _ => rfl
  | [_], _ => rfl
  | c :: d :: rest, h => by
    obtain ⟨h1, h2⟩ := noDoubleHy_cons_cons.mp h
    rw [collapseHy, if_neg h1, collapseHy_eq_self (d :: rest) h2]

theorem dropWhile_head_false {p : Nat → Bool} :
    ∀ (l : List Nat) (h : Nat), (l.dropWhile p).head? = some h → p h = false
  | [], h, hh => by simp [List.dropWhile] at hh
  | c :: rest, h, hh => by
    by_cases hc : p c
    · rw [List.dropWhile_cons, if_pos hc] at hh
      exact dropWhile_head_false rest h hh
    · rw [List.dropWhile_cons, if_neg hc] at hh
      simp only [List.head?_cons, Option.some.injEq] at hh
      rw [← hh]
      exact Bool.eq_false_iff.mpr hc

theorem dropWhile_eq_drop_ex {p : Nat → Bool} : ∀ l : List Nat, ∃ k, l.dropWhile p = l.drop k
  | [] => ⟨0, rfl⟩
  | c :: rest => by
    by_cases hc : p c
    · obtain ⟨k, hk⟩ := dropWhile_eq_drop_ex (p := p) rest
      exact ⟨k + 1, by rw [List.dropWhile_cons, if_pos hc, hk, List.drop_succ_cons]⟩
    · exact ⟨0, by rw [List.dropWhile_cons, if_neg hc, List.drop_zero]⟩

theorem noDoubleHy_of_cons {c : Nat} {rest : List Nat}
    (h : noDoubleHy (c :: rest) = true) : noDoubleHy rest = true := by
  cases rest with
  | nil => rfl
  | cons d t => exact (noDoubleHy_cons_cons.mp h).2

theorem noDoubleHy_drop : ∀ (k : Nat) (l : List Nat),
    noDoubleHy l = true → noDoubleHy (l.drop k) = true
  | 0, _, h => h
  | _ + 1, [], _ => rfl
  | k + 1, c :: rest, h => by
    rw [List.drop_succ_cons]
    exact noDoubleHy_drop k rest (noDoubleHy_of_cons h)

theorem noDoubleHy_take : ∀ (k : Nat) (l : List Nat),
    noDoubleHy l = true → noDoubleHy (l.take k) = true
  | 0, _, _ => rfl
  | _ + 1, [], _ => rfl
  | k + 1, c :: rest, h => by
    cases rest with
    | nil => cases k <;> simp [noDoubleHy]
    | cons d t =>
      obtain ⟨h1, h2⟩ := noDoubleHy_cons_cons.mp h
      cases k with
      | zero => simp [noDoubleHy]
      | succ k' =>
        have ih := noDoubleHy_take (k' + 1) (d :: t) h2
        rw [List.take_succ_cons]
        exact noDoubleHy_cons_cons.mpr ⟨h1, by simpa using ih⟩

theorem rstripHy_eq_take : ∀ l : List Nat, ∃ k, rstripHy l = l.take k
  | [] => ⟨0, rfl⟩
  | c :: rest => by
    obtain ⟨k, hk⟩ := rstripHy_eq_take rest
    by_cases h : rstripHy rest = [] ∧ c = 45
    · exact ⟨0, by simp [rstripHy, h.1, h.2]⟩
    · refine ⟨k + 1, ?_⟩
      rw [rstripHy]
      rw [if_neg h, hk, List.take_succ_cons]

theorem rstripHy_getLast?_ne : ∀ (l : List Nat) (x : Nat),
    (rstripHy l).getLast? = some x → x ≠ 45
  | [], x, hh => by simp [rstripHy] at hh
  | c :: rest, x, hh => by
    by_cases hc : rstripHy rest = [] ∧ c = 45
    · rw [rstripHy] at hh
      simp only [hc.1, hc.2, if_pos (And.intro rfl rfl)] at hh
      simp at hh
    · rw [rstripHy] at hh
      simp only [if_neg hc] at hh
      cases hr : rstripHy rest with
      | nil =>
        rw [hr] at hh
        simp only [List.getLast?_singleton, Option.some.injEq] at hh
        intro h45
        exact hc ⟨hr, hh.trans h45⟩
      | cons e t =>
        rw [hr, List.getLast?_cons_cons] at hh
        exact rstripHy_getLast?_ne rest x (by rw [hr]; exact hh)

theorem rstripHy_eq_self : ∀ l : List Nat,
    (∀ h, l.getLast? = some h → h ≠ 45) → rstripHy l = l
  | [], _ => rfl
  | c :: rest, h => by
    cases rest with
    | nil =>
      have hc : c ≠ 45 := h c (by simp)
      simp [rstripHy, hc]
    | cons d t =>
      have hrest : ∀ x, (d :: t).getLast? = some x → x ≠ 45 := fun x hx =>
        h x (by rw [List.getLast?_cons_cons]; exact hx)
      have ih := rstripHy_eq_self (d :: t) hrest
      rw [rstripHy]
      simp only [ih]
      simp

/-- The shape shared by every sanitizer output: only `[a-z0-9-]` characters,
no hyphen runs, and no hyphen at either end. -/
theorem allowed_ne_hyphen_lower {c : Nat} (h1 : isAllowedCP c = true) (h2 : c ≠ 45) :
    isLowerAlnumCP c = true := by
  simp only [isAllowedCP, Bool.or_eq_true, Bool.and_eq_true, decide_eq_true_eq,
    beq_iff_eq] at h1
  simp only [isLowerAlnumCP, Bool.or_eq_true, Bool.and_eq_true, decide_eq_true_eq]
  omega

theorem rstripHy_mem {c : Nat} {l : List Nat} (h : c ∈ rstripHy l) : c ∈ l := by
  obtain ⟨k, hk⟩ := rstripHy_eq_take l
  exact List.mem_of_mem_take (hk ▸ h)

theorem rstripHy_noDouble {l : List Nat} (h : noDoubleHy l = true) :
    noDoubleHy (rstripHy l) = true := by
  obtain ⟨k, hk⟩ := rstripHy_eq_take l
  rw [hk]
  exact noDoubleHy_take k l h

theorem rstripHy_head? {l : List Nat} {x : Nat} (h : (rstripHy l).head? = some x) :
    l.head? = some x := by
  obtain ⟨k, hk⟩ := rstripHy_eq_take l
  rw [hk, List.head?_take] at h
  by_cases hk0 : k = 0
  · rw [if_pos hk0] at h
    exact absurd h (by simp)
  · rwa [if_neg hk0] at h

theorem rstripHy_length_le (l : List Nat) : (rstripHy l).length ≤ l.length := by
  obtain ⟨k, hk⟩ := rstripHy_eq_take l
  rw [hk, List.length_take]
  omega

theorem lstripHy_mem {c : Nat} {l : List Nat} (h : c ∈ lstripHy l) : c ∈ l := by
  obtain ⟨k, hk⟩ := dropWhile_eq_drop_ex (p := (· == 45)) l
  rw [lstripHy, hk] at h
  exact List.mem_of_mem_drop h

theorem lstripHy_noDouble {l : List Nat} (h : noDoubleHy l = true) :
    noDoubleHy (lstripHy l) = true := by
  obtain ⟨k, hk⟩ := dropWhile_eq_drop_ex (p := (· == 45)) l
  rw [lstripHy, hk]
  exact noDoubleHy_drop k l h

theorem lstripHy_head?_ne {l : List Nat} {x : Nat} (h : (lstripHy l).head? = some x) :
    x ≠ 45 := by
  have := dropWhile_head_false (p := (· == 45)) l x h
  simpa using this

theorem lstripHy_length_le (l : List Nat) : (lstripHy l).length ≤ l.length := by
  obtain ⟨k, hk⟩ := dropWhile_eq_drop_ex (p := (· == 45)) l
  rw [lstripHy, hk, List.length_drop]
  omega

theorem stripHy_mem {c : Nat} {l : List Nat} (h : c ∈ stripHy l) : c ∈ l :=
  lstripHy_mem (rstripHy_mem h)

theorem stripHy_noDouble {l : List Nat} (h : noDoubleHy l = true) :
    noDoubleHy (stripHy l) = true :=
  rstripHy_noDouble (lstripHy_noDouble h)

theorem stripHy_head?_ne {l : List Nat} {x : Nat} (h : (stripHy l).head? = some x) :
    x ≠ 45 :=
  lstripHy_head?_ne (rstripHy_head? h)

theorem stripHy_getLast?_ne {l : List Nat} {x : Nat} (h : (stripHy l).getLast? = some x) :
    x ≠ 45 :=
  rstripHy_getLast?_ne _ x h

theorem stripHy_length_le (l : List Nat) : (stripHy l).length ≤ l.length :=
  le_trans (rstripHy_length_le _) (lstripHy_length_le l)

/-- Every character of the stream after the character-replacement stage of the
sanitizer lies in `[a-z0-9-]`. -/
theorem sanitize_stage4_allowed (name : List Nat) :
    ∀ c ∈ (((name.map pyLower).map fun c => if c = 95 then 45 else c).map fun c =>
        if c = 32 then 45 else c).map fun c => if isAllowedCP c then c else 45,
      isAllowedCP c = true := by
  intro c hc
  rw [List.mem_map] at hc
  obtain ⟨x, _, hx⟩ := hc
  by_cases hall : isAllowedCP x
  · rw [if_pos hall] at hx
    exact hx ▸ hall
  · rw [if_neg hall] at hx
    rw [← hx]
    rfl

/-- Master shape lemma for the sanitizer: the output always has the
`goodOut` shape and respects the length bound. -/
theorem sanitize_good (name : List Nat) (ml : Nat) :
    goodOut (sanitize_feature_name name ml) ∧
      (sanitize_feature_name name ml).length ≤ ml := by
  rw [sanitize_feature_name]
  have h4 := sanitize_stage4_allowed name
  set s4 := (((name.map pyLower).map fun c => if c = 95 then 45 else c).map fun c =>
    if c = 32 then 45 else c).map fun c => if isAllowedCP c then c else 45 with hs4
  have h5all : ∀ c ∈ collapseHy s4, isAllowedCP c = true :=
    fun c hc => h4 c (collapseHy_mem s4 c hc)
  have h5nd : noDoubleHy (collapseHy s4) = true := collapseHy_noDouble s4
  set s5 := collapseHy s4 with hs5
  have h6all : ∀ c ∈ stripHy s5, isAllowedCP c = true :=
    fun c hc => h5all c (stripHy_mem hc)
  have h6nd : noDoubleHy (stripHy s5) = true := stripHy_noDouble h5nd
  have h6h : ∀ x, (stripHy s5).head? = some x → isLowerAlnumCP x = true := by
    intro x hx
    exact allowed_ne_hyphen_lower (h6all x (List.mem_of_mem_head? hx)) (stripHy_head?_ne hx)
  have h6l : ∀ x, (stripHy s5).getLast? = some x → isLowerAlnumCP x = true := by
    intro x hx
    exact allowed_ne_hyphen_lower (h6all x (List.mem_of_mem_getLast? hx))
      (stripHy_getLast?_ne hx)
  set s6 := stripHy s5 with hs6
  by_cases hlen : ml < s6.length
  · rw [if_pos hlen]
    have htall : ∀ c ∈ rstripHy (s6.take ml), isAllowedCP c = true :=
      fun c hc => h6all c (List.mem_of_mem_take (rstripHy_mem hc))
    refine ⟨⟨htall, rstripHy_noDouble (noDoubleHy_take ml s6 h6nd), ?_, ?_⟩, ?_⟩
    · intro x hx
      have h1 := rstripHy_head? hx
      rw [List.head?_take] at h1
      by_cases hml : ml = 0
      · rw [if_pos hml] at h1
        exact absurd h1 (by simp)
      · rw [if_neg hml] at h1
        exact h6h x h1
    · intro x hx
      exact allowed_ne_hyphen_lower (htall x (List.mem_of_mem_getLast? hx))
        (rstripHy_getLast?_ne _ x hx)
    · calc (rstripHy (s6.take ml)).length ≤ (s6.take ml).length := rstripHy_length_le _
        _ ≤ ml := by rw [List.length_take]; omega
  · rw [if_neg hlen]
    exact ⟨⟨h6all, h6nd, h6h, h6l⟩, by omega⟩

theorem lstripHy_eq_self {l : List Nat}
    (h : ∀ x, l.head? = some x → x ≠ 45) : lstripHy l = l := by
  cases l with
  | nil => rfl
  | cons c rest =>
    have hc : c ≠ 45 := h c (by simp)
    rw [lstripHy, List.dropWhile_cons, if_neg (by simpa using hc)]

/-- The sanitizer is the identity on any string that already has the output
shape and fits inside the length budget. -/
theorem sanitize_id_of_good {l : List Nat} {ml : Nat}
    (hg : goodOut l) (hlen : l.length ≤ ml) :
    sanitize_feature_name l ml = l := by
  obtain ⟨hall, hnd, hh, hl⟩ := hg
  have e1 : l.map pyLower = l := by
    refine map_id_of_mem l fun c hc => ?_
    have := hall c hc
    simp only [isAllowedCP, Bool.or_eq_true, Bool.and_eq_true, decide_eq_true_eq,
      beq_iff_eq] at this
    rw [pyLower, if_neg (by omega)]
  have e2 : (l.map fun c => if c = 95 then 45 else c) = l := by
    refine map_id_of_mem l fun c hc => ?_
    have := hall c hc
    simp only [isAllowedCP, Bool.or_eq_true, Bool.and_eq_true, decide_eq_true_eq,
      beq_iff_eq] at this
    rw [if_neg (by omega)]
  have e3 : (l.map fun c => if c = 32 then 45 else c) = l := by
    refine map_id_of_mem l fun c hc => ?_
    have := hall c hc
    simp only [isAllowedCP, Bool.or_eq_true, Bool.and_eq_true, decide_eq_true_eq,
      beq_iff_eq] at this
    rw [if_neg (by omega)]
  have e4 : (l.map fun c => if isAllowedCP c then c else 45) = l :=
    map_id_of_mem l fun c hc => if_pos (hall c hc)
  have e5 : collapseHy l = l := collapseHy_eq_self l hnd
  have e6 : stripHy l = l := by
    rw [stripHy, lstripHy_eq_self (fun x hx => by
      intro h45
      have := hh x hx
      rw [h45] at this
      exact absurd this (by decide))]
    exact rstripHy_eq_self l (fun x hx => by
      intro h45
      have := hl x hx
      rw [h45] at this
      exact absurd this (by decide))
  rw [sanitize_feature_name, e1, e2, e3, e4, e5, e6, if_neg (by omega)]

/-! ### Helper lemmas: the allocator -/

theorem foldl_max_le {m : Nat} : ∀ (ns : List Nat) (a : Nat),
    (∀ x ∈ ns, x ≤ m) → a ≤ m → ns.foldl Nat.max a ≤ m
  | [], a, _, ha => ha
  | n :: rest, a, h, ha => by
    rw [List.foldl_cons]
    exact foldl_max_le rest (Nat.max a n)
      (fun x hx => h x (List.mem_cons_of_mem n hx))
      (Nat.max_le.mpr ⟨ha, h n (List.mem_cons_self n rest)⟩)

theorem start_le_foldl_max : ∀ (ns : List Nat) (a : Nat), a ≤ ns.foldl Nat.max a
  | [], _ => le_refl _
  | n :: rest, a => by
    rw [List.foldl_cons]
    exact le_trans (Nat.le_max_left a n) (start_le_foldl_max rest _)

theorem le_foldl_max : ∀ (ns : List Nat) (a : Nat), ∀ x ∈ ns, x ≤ ns.foldl Nat.max a
  | [], _, x, hx => absurd hx (List.not_mem_nil x)
  | n :: rest, a, x, hx => by
    rw [List.foldl_cons]
    rcases List.mem_cons.mp hx with h | h
    · subst h
      calc x ≤ Nat.max a x := Nat.le_max_right a x
        _ ≤ (rest.foldl Nat.max (Nat.max a x)) := start_le_foldl_max rest _
    · exact le_foldl_max rest (Nat.max a n) x h

theorem foldl_max_eq {ns : List Nat} {m : Nat} (hm : m ∈ ns) (hall : ∀ x ∈ ns, x ≤ m) :
    ns.foldl Nat.max 0 = m :=
  Nat.le_antisymm (foldl_max_le ns 0 hall (Nat.zero_le m)) (le_foldl_max ns 0 m hm)

/-! ### Helper lemmas: the copy loop -/

theorem copyFold_eq (copyFile : String → Option String) :
    ∀ (files : List String) (c f : Nat) (errs : List String),
      files.foldl (copyStep copyFile) (c, f, errs) =
        (c + files.countP (fun x => (copyFile x).isNone),
         f + files.countP (fun x => (copyFile x).isSome),
         errs ++ files.filterMap (failMsg copyFile))
  | [], c, f, errs => by simp
  | x :: rest, c, f, errs => by
    rw [List.foldl_cons]
    cases hx : copyFile x with
    | none =>
      have step : copyStep copyFile (c, f, errs) x = (c + 1, f, errs) := by
        simp [copyStep, hx]
      rw [step, copyFold_eq copyFile rest (c + 1) f errs]
      simp only [List.countP_cons, List.filterMap_cons, failMsg, hx]
      simp
      omega
    | some e =>
      have step : copyStep copyFile (c, f, errs) x =
          (c, f + 1, errs ++ ["Failed to copy " ++ x ++ ": " ++ e]) := by
        simp [copyStep, hx]
      rw [step, copyFold_eq copyFile rest c (f + 1) _]
      simp only [List.countP_cons, List.filterMap_cons, failMsg, hx]
      simp
      omega

/-! ### Helper lemmas: the path order -/

theorem lexLeCh_total : ∀ a b : List Char, lexLeCh a b = true ∨ lexLeCh b a = true
  | [], _ => Or.inl rfl
  | _ :: _, [] => Or.inr rfl
  | a :: as, b :: bs => by
    by_cases hab : a = b
    · subst hab
      rw [lexLeCh, if_pos rfl, lexLeCh, if_pos rfl]
      exact lexLeCh_total as bs
    · rcases lt_or_gt_of_ne hab with h | h
      · exact Or.inl (by rw [lexLeCh, if_neg hab]; exact decide_eq_true h)
      · exact Or.inr (by rw [lexLeCh, if_neg (Ne.symm hab)]; exact decide_eq_true h)

theorem lexLeCh_trans : ∀ a b c : List Char,
    lexLeCh a b = true → lexLeCh b c = true → lexLeCh a c = true
  | [], _, _, _, _ => rfl
  | _ :: _, [], _, h, _ => by simp [lexLeCh] at h
  | _ :: _, _ :: _, [], _, h => by simp [lexLeCh] at h
  | x :: xs, y :: ys, z :: zs, h1, h2 => by
    rw [lexLeCh] at h1 h2 ⊢
    by_cases hxy : x = y
    · subst hxy
      rw [if_pos rfl] at h1
      by_cases hxz : x = z
      · subst hxz
        rw [if_pos rfl] at h2 ⊢
        exact lexLeCh_trans xs ys zs h1 h2
      · rw [if_neg hxz] at h2 ⊢
        exact h2
    · rw [if_neg hxy] at h1
      have hlt1 : x < y := of_decide_eq_true h1
      by_cases hyz : y = z
      · subst hyz
        rw [if_neg hxy]
        exact decide_eq_true hlt1
      · rw [if_neg hyz] at h2
        have hlt2 : y < z := of_decide_eq_true h2
        have hlt : x < z := lt_trans hlt1 hlt2
        rw [if_neg (ne_of_lt hlt)]
        exact decide_eq_true hlt

/-! ### Helper lemmas: the CLI trace -/

theorem cliRun_trace_cases (env : CliEnv) (fr : List Nat) :
    (cliRun env fr).1 = [] ∨
    (cliRun env fr).1 = [.checkGitInstalled] ∨
    (cliRun env fr).1 = [.checkGitInstalled, .checkGitRepository] ∨
    (cliRun env fr).1 = [.checkGitInstalled, .checkGitRepository, .getRepoRoot] ∨
    (cliRun env fr).1 =
      [.checkGitInstalled, .checkGitRepository, .getRepoRoot, .getMainBranch] ∨
    (cliRun env fr).1 =
      [.checkGitInstalled, .checkGitRepository, .getRepoRoot, .getMainBranch,
       .checkSpecKit] ∨
    (cliRun env fr).1 =
      [.checkGitInstalled, .checkGitRepository, .getRepoRoot, .getMainBranch,
       .checkSpecKit, .checkClaudeInstalled] ∨
    (cliRun env fr).1 =
      [.checkGitInstalled, .checkGitRepository, .getRepoRoot, .getMainBranch,
       .checkSpecKit, .checkClaudeInstalled, .gitFetch, .listBranches,
       .allocateNumber] ∨
    (cliRun env fr).1 =
      [.checkGitInstalled, .checkGitRepository, .getRepoRoot, .getMainBranch,
       .checkSpecKit, .checkClaudeInstalled, .gitFetch, .listBranches,
       .allocateNumber, .buildFeatureRequest] ∨
    (cliRun env fr).1 =
      [.checkGitInstalled, .checkGitRepository, .getRepoRoot, .getMainBranch,
       .checkSpecKit, .checkClaudeInstalled, .gitFetch, .listBranches,
       .allocateNumber, .buildFeatureRequest, .buildConfig, .createWorktree] ∨
    (cliRun env fr).1 =
      [.checkGitInstalled, .checkGitRepository, .getRepoRoot, .getMainBranch,
       .checkSpecKit, .checkClaudeInstalled, .gitFetch, .listBranches,
       .allocateNumber, .buildFeatureRequest, .buildConfig, .createWorktree,
       .launchClaude] := by
  rw [cliRun]
  repeat' split
  all_goals simp

/-! ### Claim theorems -/

/-- Claim C3: allocation reduces each branch name to the part after its final
`/`, keeps exactly the names with three leading digits followed by a hyphen,
and returns `max(matched) + 1` (or 1 with no match) zero-padded to three
digits, failing exactly when the next number would exceed 999; including the
three concrete examples from the spec. -/
theorem allocator_next_number (branches : List String) :
    (matchedNumbers branches = [] →
      get_next_feature_number branches = .ok ⟨1, "001"⟩) ∧
    (∀ m, m ∈ matchedNumbers branches → (∀ x ∈ matchedNumbers branches, x ≤ m) →
      (m + 1 ≤ 999 →
        get_next_feature_number branches = .ok ⟨m + 1, pad3 (m + 1)⟩) ∧
      (999 < m + 1 → ∃ e, get_next_feature_number branches = .error e)) ∧
    get_next_feature_number ["main", "001-add-auth", "002-fix-bug", "003-new"] =
      .ok ⟨4, "004"⟩ ∧
    get_next_feature_number ["main", "origin/005-remote"] = .ok ⟨6, "006"⟩ ∧
    (∃ e, get_next_feature_number ["main", "999-last"] = .error e) := by
  refine ⟨?_, ?_, by decide, by decide,
    ⟨"Feature number 1000 exceeds maximum of 999", by decide⟩⟩
  · intro h
    rw [get_next_feature_number, h]
    decide
  · intro m hm hall
    have hne : matchedNumbers branches ≠ [] := fun h => by
      rw [h] at hm
      exact List.not_mem_nil m hm
    have hmax : (matchedNumbers branches).foldl Nat.max 0 = m := foldl_max_eq hm hall
    have hred : get_next_feature_number branches =
        (if 999 < m + 1 then
          .error ("Feature number " ++ toString (m + 1) ++ " exceeds maximum of 999")
        else .ok ⟨m + 1, pad3 (m + 1)⟩) := by
      rw [get_next_feature_number]
      cases hc : matchedNumbers branches with
      | nil => exact absurd hc hne
      | cons n rest =>
        rw [hc] at hmax
        simp only [← hmax]
    constructor
    · intro hle
      rw [hred, if_neg (by omega)]
    · intro hgt
      exact ⟨_, by rw [hred, if_pos hgt]⟩

/-- Witness for C3 at a concrete branch list with maximum 7. -/
theorem allocator_next_number_witness :
    get_next_feature_number ["main", "007-x"] = .ok ⟨8, "008"⟩ := by
  have h := ((allocator_next_number ["main", "007-x"]).2.1 7 (by decide)
    (by decide)).1 (by omega)
  exact h

/-- Claim C5: sanitization is idempotent at the default maximum length:
`sanitize(sanitize(x)) == sanitize(x)` for every input. -/
theorem sanitize_idempotent (x : List Nat) :
    sanitize_feature_name (sanitize_feature_name x 50) 50 =
      sanitize_feature_name x 50 := by
  obtain ⟨hg, hlen⟩ := sanitize_good x 50
  exact sanitize_id_of_good hg hlen

/-- Claim C6: a non-empty sanitizer output starts and ends with a lowercase
alphanumeric, contains only `[a-z0-9-]` with no two consecutive hyphens
(hence matches the regular expression of the spec), and is no longer than
`max_length`. -/
theorem sanitize_shape (x : List Nat) (ml : Nat)
    (hne : sanitize_feature_name x ml ≠ []) :
    (∀ c ∈ sanitize_feature_name x ml, isAllowedCP c = true) ∧
    (∃ h, (sanitize_feature_name x ml).head? = some h ∧ isLowerAlnumCP h = true) ∧
    (∃ h, (sanitize_feature_name x ml).getLast? = some h ∧
      isLowerAlnumCP h = true) ∧
    noDoubleHy (sanitize_feature_name x ml) = true ∧
    (sanitize_feature_name x ml).length ≤ ml := by
  obtain ⟨⟨hall, hnd, hh, hl⟩, hlen⟩ := sanitize_good x ml
  refine ⟨hall, ?_, ?_, hnd, hlen⟩
  · cases hv : (sanitize_feature_name x ml).head? with
    | none => exact absurd (List.head?_eq_none_iff.mp hv) hne
    | some h => exact ⟨h, rfl, hh h hv⟩
  · cases hv : (sanitize_feature_name x ml).getLast? with
    | none => exact absurd (List.getLast?_eq_none_iff.mp hv) hne
    | some h => exact ⟨h, rfl, hl h hv⟩

/-- Witness for C6 at the code points of `"Fix"` (output `"fix"`). -/
theorem sanitize_shape_witness :
    (∀ c ∈ sanitize_feature_name [70, 105, 120] 50, isAllowedCP c = true) ∧
    (∃ h, (sanitize_feature_name [70, 105, 120] 50).head? = some h ∧
      isLowerAlnumCP h = true) ∧
    (∃ h, (sanitize_feature_name [70, 105, 120] 50).getLast? = some h ∧
      isLowerAlnumCP h = true) ∧
    noDoubleHy (sanitize_feature_name [70, 105, 120] 50) = true ∧
    (sanitize_feature_name [70, 105, 120] 50).length ≤ 50 :=
  sanitize_shape [70, 105, 120] 50 (by decide)

/-- Claim C7: when the sanitized form of the feature text is empty, the run
that reaches `FeatureRequest` construction rejects the input with exit code 3
and never creates a branch or worktree. -/
theorem empty_sanitized_rejected (env : CliEnv) (fr : List Nat) (b : String)
    (hfr : fr.all isSpaceCP = false) (h1 : env.gitInstalled = true)
    (h2 : env.inGitRepository = true) (h3 : env.repoRootOk = true)
    (h4 : env.mainBranch = some b) (h5 : env.specKitOk = true)
    (h6 : env.claudeInstalled = true) (h7 : allocOk env.branches = true)
    (hempty : sanitize_feature_name fr 50 = []) :
    (cliRun env fr).2 = 3 ∧ Step.createWorktree ∉ (cliRun env fr).1 ∧
      Step.launchClaude ∉ (cliRun env fr).1 := by
  have hinv : featureRequestValid fr (sanitize_feature_name fr 50) = false := by
    rw [hempty]
    simp [featureRequestValid]
  rw [cliRun]
  simp [hfr, h1, h2, h3, h4, h5, h6, h7, hinv]

/-- Witness for C7: the single-character input `"!"` (code point 33)
sanitizes to the empty identifier and is rejected with exit code 3. -/
theorem empty_sanitized_rejected_witness :
    (cliRun allGoodEnv [33]).2 = 3 ∧
      Step.createWorktree ∉ (cliRun allGoodEnv [33]).1 ∧
      Step.launchClaude ∉ (cliRun allGoodEnv [33]).1 :=
  empty_sanitized_rejected allGoodEnv [33] "main" (by decide) rfl rfl rfl rfl rfl rfl
    (by decide) (by decide)

/-- Claim C4: the four prerequisite checks run in the fixed source order
(git installed, inside a work tree, scaffold on the base branch, assistant
installed); the checks appearing in any trace are an initial segment of that
order, and the first failing check ends the run with exit code 1 and its
trace shows no later check. -/
theorem validation_fail_fast (env : CliEnv) (fr : List Nat)
    (hfr : fr.all isSpaceCP = false) :
    (∃ k, (cliRun env fr).1.filter isCheckStep = checkOrder.take k) ∧
    (env.gitInstalled = false → cliRun env fr = ([.checkGitInstalled], 1)) ∧
    (env.gitInstalled = true → env.inGitRepository = false →
      cliRun env fr = ([.checkGitInstalled, .checkGitRepository], 1)) ∧
    (∀ b, env.gitInstalled = true → env.inGitRepository = true →
      env.repoRootOk = true → env.mainBranch = some b → env.specKitOk = false →
      cliRun env fr = ([.checkGitInstalled, .checkGitRepository, .getRepoRoot,
        .getMainBranch, .checkSpecKit], 1)) ∧
    (∀ b, env.gitInstalled = true → env.inGitRepository = true →
      env.repoRootOk = true → env.mainBranch = some b → env.specKitOk = true →
      env.claudeInstalled = false →
      cliRun env fr = ([.checkGitInstalled, .checkGitRepository, .getRepoRoot,
        .getMainBranch, .checkSpecKit, .checkClaudeInstalled], 1)) := by
  refine ⟨?_, ?_, ?_, ?_, ?_⟩
  · rcases cliRun_trace_cases env fr with h | h | h | h | h | h | h | h | h | h | h
    · exact ⟨0, by rw [h]; decide⟩
    · exact ⟨1, by rw [h]; decide⟩
    · exact ⟨2, by rw [h]; decide⟩
    · exact ⟨2, by rw [h]; decide⟩
    · exact ⟨2, by rw [h]; decide⟩
    · exact ⟨3, by rw [h]; decide⟩
    · exact ⟨4, by rw [h]; decide⟩
    · exact ⟨4, by rw [h]; decide⟩
    · exact ⟨4, by rw [h]; decide⟩
    · exact ⟨4, by rw [h]; decide⟩
    · exact ⟨4, by rw [h]; decide⟩
  · intro h
    rw [cliRun]
    simp [hfr, h]
  · intro h1 h2
    rw [cliRun]
    simp [hfr, h1, h2]
  · intro b h1 h2 h3 h4 h5
    rw [cliRun]
    simp [hfr, h1, h2, h3, h4, h5]
  · intro b h1 h2 h3 h4 h5 h6
    rw [cliRun]
    simp [hfr, h1, h2, h3, h4, h5, h6]

/-- Witness for C4 at an environment whose first check (git installed)
fails, with the non-blank input `"a"`. -/
theorem validation_fail_fast_witness :
    (∃ k, (cliRun { allGoodEnv with gitInstalled := false } [97]).1.filter
      isCheckStep = checkOrder.take k) ∧
    (({ allGoodEnv with gitInstalled := false } : CliEnv).gitInstalled = false →
      cliRun { allGoodEnv with gitInstalled := false } [97] =
        ([.checkGitInstalled], 1)) ∧
    (({ allGoodEnv with gitInstalled := false } : CliEnv).gitInstalled = true →
      ({ allGoodEnv with gitInstalled := false } : CliEnv).inGitRepository = false →
      cliRun { allGoodEnv with gitInstalled := false } [97] =
        ([.checkGitInstalled, .checkGitRepository], 1)) ∧
    (∀ b, ({ allGoodEnv with gitInstalled := false } : CliEnv).gitInstalled = true →
      ({ allGoodEnv with gitInstalled := false } : CliEnv).inGitRepository = true →
      ({ allGoodEnv with gitInstalled := false } : CliEnv).repoRootOk = true →
      ({ allGoodEnv with gitInstalled := false } : CliEnv).mainBranch = some b →
      ({ allGoodEnv with gitInstalled := false } : CliEnv).specKitOk = false →
      cliRun { allGoodEnv with gitInstalled := false } [97] =
        ([.checkGitInstalled, .checkGitRepository, .getRepoRoot,
          .getMainBranch, .checkSpecKit], 1)) ∧
    (∀ b, ({ allGoodEnv with gitInstalled := false } : CliEnv).gitInstalled = true →
      ({ allGoodEnv with gitInstalled := false } : CliEnv).inGitRepository = true →
      ({ allGoodEnv with gitInstalled := false } : CliEnv).repoRootOk = true →
      ({ allGoodEnv with gitInstalled := false } : CliEnv).mainBranch = some b →
      ({ allGoodEnv with gitInstalled := false } : CliEnv).specKitOk = true →
      ({ allGoodEnv with gitInstalled := false } : CliEnv).claudeInstalled = false →
      cliRun { allGoodEnv with gitInstalled := false } [97] =
        ([.checkGitInstalled, .checkGitRepository, .getRepoRoot,
          .getMainBranch, .checkSpecKit, .checkClaudeInstalled], 1)) :=
  validation_fail_fast { allGoodEnv with gitInstalled := false } [97] (by decide)

/-- Claim C2 counterexample: in a run where every prerequisite passes and
`git worktree add` fails, the process exits with code 2, not 4 (the assistant
is indeed not launched). -/
theorem provisioning_exit_code_cex :
    (cliRun worktreeFailEnv [97]).2 = 2 ∧ ¬((cliRun worktreeFailEnv [97]).2 = 4) ∧
      Step.createWorktree ∈ (cliRun worktreeFailEnv [97]).1 ∧
      Step.launchClaude ∉ (cliRun worktreeFailEnv [97]).1 := by
  decide

/-- Claim C2 as amended: whenever worktree provisioning fails, the pipeline
halts without launching the assistant and the process exits with code 2. -/
theorem provisioning_failure_halts (env : CliEnv) (fr : List Nat) (b : String)
    (hfr : fr.all isSpaceCP = false) (h1 : env.gitInstalled = true)
    (h2 : env.inGitRepository = true) (h3 : env.repoRootOk = true)
    (h4 : env.mainBranch = some b) (h5 : env.specKitOk = true)
    (h6 : env.claudeInstalled = true) (h7 : allocOk env.branches = true)
    (h8 : featureRequestValid fr (sanitize_feature_name fr 50) = true)
    (h9 : env.worktreeAddOk = false) :
    (cliRun env fr).2 = 2 ∧ Step.launchClaude ∉ (cliRun env fr).1 := by
  rw [cliRun]
  simp [hfr, h1, h2, h3, h4, h5, h6, h7, h8, h9]

/-- Witness for the amended C2 at a concrete failing environment. -/
theorem provisioning_failure_halts_witness :
    (cliRun worktreeFailEnv [97]).2 = 2 ∧
      Step.launchClaude ∉ (cliRun worktreeFailEnv [97]).1 :=
  provisioning_failure_halts worktreeFailEnv [97] "main" (by decide) rfl rfl rfl rfl
    rfl rfl (by decide) (by decide) rfl

/-- Claim C1: the `cli` pipeline never performs the environment-propagation
step in any run: `copy_env_files_to_worktree` has no call site in `cli.py`,
so no `.env` files are copied into the new worktree before the assistant
handoff. -/
theorem env_propagator_never_invoked (env : CliEnv) (fr : List Nat) :
    Step.copyEnvFiles ∉ (cliRun env fr).1 := by
  rcases cliRun_trace_cases env fr with h | h | h | h | h | h | h | h | h | h | h <;>
    rw [h] <;> decide

theorem keptEntry_iff (wsParts : List String) (e : FsEntry) :
    keptEntry wsParts e = true ↔
      e.isFile = true ∧ isEnvName (entryName e).data = true ∧
      ¬(".git" ∈ wsParts ++ e.parts) ∧ ¬(".worktrees" ∈ wsParts ++ e.parts) := by
  simp [keptEntry, excludedEntry, and_assoc]

theorem countP_isNone_add_isSome (copyFile : String → Option String) :
    ∀ l : List String,
      (l.countP fun x => (copyFile x).isNone) +
        (l.countP fun x => (copyFile x).isSome) = l.length
  | [] => rfl
  | x :: rest => by
    have ih := countP_isNone_add_isSome copyFile rest
    simp only [List.countP_cons, List.length_cons]
    cases hx : copyFile x <;> simp <;> omega

theorem filterMap_failMsg_length (copyFile : String → Option String) :
    ∀ l : List String,
      (l.filterMap (failMsg copyFile)).length =
        l.countP fun x => (copyFile x).isSome
  | [] => rfl
  | x :: rest => by
    have ih := filterMap_failMsg_length copyFile rest
    simp only [List.filterMap_cons, List.countP_cons, failMsg]
    cases hx : copyFile x <;> simp [ih]

/-- Claim C8: when the destination exists, is a directory, and the source
root resolves, the copy loop handles every discovered file independently:
the returned report counts exactly the successful files in `files_copied`,
exactly the failing ones in `files_failed`, and records exactly one error
message per failing file, returning `.ok` rather than failing on per-file
errors. -/
theorem copy_best_effort (rootParts : List String) (fs : List FsEntry)
    (copyFile : String → Option String) :
    ∃ r : EnvFileCopyResult,
      copy_env_files_to_worktree true true (some rootParts) fs copyFile = .ok r ∧
      r.files_discovered = (discover_env_files rootParts fs).length ∧
      r.files_copied =
        ((discover_env_files rootParts fs).countP fun x => (copyFile x).isNone) ∧
      r.files_failed =
        ((discover_env_files rootParts fs).countP fun x => (copyFile x).isSome) ∧
      r.errors = (discover_env_files rootParts fs).filterMap (failMsg copyFile) ∧
      r.errors.length = r.files_failed := by
  unfold copy_env_files_to_worktree
  simp only [Bool.true_eq_false, if_false]
  rw [copyFold_eq]
  refine ⟨_, rfl, rfl, by simp, by simp, by simp, ?_⟩
  simp [filterMap_failMsg_length]

/-- Claim C10: every report returned by `copy_env_files_to_worktree`
satisfies `files_copied + files_failed = files_discovered` and
`len(errors) = files_failed`. -/
theorem copy_report_counts (destExists destIsDir : Bool)
    (repoRoot : Option (List String)) (fs : List FsEntry)
    (copyFile : String → Option String) (r : EnvFileCopyResult)
    (h : copy_env_files_to_worktree destExists destIsDir repoRoot fs copyFile =
      .ok r) :
    r.files_copied + r.files_failed = r.files_discovered ∧
      r.errors.length = r.files_failed := by
  unfold copy_env_files_to_worktree at h
  by_cases h1 : destExists = false
  · rw [if_pos h1] at h
    cases h
  rw [if_neg h1] at h
  by_cases h2 : destIsDir = false
  · rw [if_pos h2] at h
    cases h
  rw [if_neg h2] at h
  cases repoRoot with
  | none => cases h
  | some rootParts =>
    dsimp only at h
    rw [copyFold_eq] at h
    have hr := (Except.ok.injEq _ _).mp h
    rw [← hr]
    refine ⟨?_, ?_⟩
    · simp only
      rw [Nat.zero_add, Nat.zero_add]
      exact countP_isNone_add_isSome copyFile _
    · simp only
      rw [List.nil_append, Nat.zero_add]
      exact filterMap_failMsg_length copyFile _

/-- Witness for C10 at a one-file filesystem whose single copy fails. -/
theorem copy_report_counts_witness :
    (EnvFileCopyResult.mk 1 0 1 ["Failed to copy .env: X"]).files_copied +
        (EnvFileCopyResult.mk 1 0 1 ["Failed to copy .env: X"]).files_failed =
      (EnvFileCopyResult.mk 1 0 1 ["Failed to copy .env: X"]).files_discovered ∧
      (EnvFileCopyResult.mk 1 0 1 ["Failed to copy .env: X"]).errors.length =
        (EnvFileCopyResult.mk 1 0 1 ["Failed to copy .env: X"]).files_failed :=
  copy_report_counts true true (some []) [⟨[".env"], true⟩] (fun _ => some "X")
    ⟨1, 0, 1, ["Failed to copy .env: X"]⟩ (by decide)

/-- Claim C9: `discover_env_files` returns exactly the workspace-relative
paths of the regular files whose name begins with `.env`, excluding every
file whose path (the workspace path followed by the relative components)
has a `.git` or `.worktrees` component, sorted ascending in the
lexicographic code-point order; as a pure function it yields the same list
on every call over the same filesystem state. -/
theorem discover_exact_sorted (wsParts : List String) (fs : List FsEntry) :
    List.Sorted strLexLe (discover_env_files wsParts fs) ∧
    (discover_env_files wsParts fs).Perm
      ((fs.filter (keptEntry wsParts)).map relPath) ∧
    (∀ s, s ∈ discover_env_files wsParts fs ↔
      ∃ e ∈ fs, e.isFile = true ∧ isEnvName (entryName e).data = true ∧
        ¬(".git" ∈ wsParts ++ e.parts) ∧ ¬(".worktrees" ∈ wsParts ++ e.parts) ∧
        s = relPath e) := by
  haveI : IsTotal String strLexLe := ⟨fun a b => lexLeCh_total a.data b.data⟩
  haveI : IsTrans String strLexLe := ⟨fun a b c => lexLeCh_trans a.data b.data c.data⟩
  refine ⟨List.sorted_insertionSort strLexLe _, List.perm_insertionSort strLexLe _, ?_⟩
  intro s
  rw [discover_env_files, List.mem_insertionSort, List.mem_map]
  simp only [List.mem_filter, keptEntry_iff]
  constructor
  · rintro ⟨e, ⟨he, h1, h2, h3, h4⟩, hs⟩
    exact ⟨e, he, h1, h2, h3, h4, hs.symm⟩
  · rintro ⟨e, he, h1, h2, h3, h4, hs⟩
    exact ⟨e, ⟨he, h1, h2, h3, h4⟩, hs.symm⟩

end Spork
